import Mathlib

/-!
Verification of the dice-notation parser and roll-evaluation engine of the
starforged-bot repository (src/parse_roll_spec.rs, src/rolls.rs).

Numeric conventions: `InputType` is `u8` and `OutputType` is `u32` in the
source (src/main.rs).  Machine integers are modelled as `Nat`; the one place
where `u32` overflow is reachable in principle (the `u32` addition inside
`ActionRoll::score`) wraps explicitly modulo `2 ^ 32`.  Fallible code
(parse errors and panics) is modelled with `Option`: `none` is a parse error
or a panic, as indicated at each definition.
-/

namespace Starforged

/-- The `u32` modulus. -/
def U32 : Nat := 2 ^ 32

/-! ## The lexer (src/parse_roll_spec.rs, `Token` with the `logos` derive)

The token patterns are `\d*(d|D)\d+` (an `XdY` dice group), `\d+` (a bare
bonus), the literal `+`, and skipped whitespace runs `\s+`; any other text
produces the catch-all error token.  `logos` matches with maximal munch, so
a digit run followed by `d`/`D` and more digits lexes as one `XdY` token,
and a digit run not so followed lexes as a bonus number. -/

/-- Whitespace as matched by the `\s` class on the inputs of interest
(space, tab, newline, carriage return). -/
def isWsChar (c : Char) : Bool :=
  c == ' ' || c == '\t' || c == '\n' || c == '\r'

/-- The semantics of `str::parse::<u8>` on a captured digit run: the numeric
value if it fits in `u8`, failure otherwise. -/
def parseU8 (ds : List Char) : Option Nat :=
  let n := ds.foldl (fun acc c => 10 * acc + (c.toNat - 48)) 0
  if n ≤ 255 then some n else none

/-- The tokens of the notation lexer. -/
inductive Token where
  /-- An `XdY` dice group: a count and a face size. -/
  | xdy (count size : Nat)
  /-- A bare bonus number. -/
  | bonus (v : Nat)
  /-- The `+` separator. -/
  | plus
  /-- The catch-all error token (unrecognized text, or a numeric capture
      that does not fit in `u8`, which makes the token callback fail). -/
  | error
deriving DecidableEq, Repr

/-- Build the `XdY` token from its two captured digit runs, following
`parse_xdy`: a missing count defaults to 1, and either number failing to
parse as `u8` turns the token into the error token. -/
def mkXdY (ds ds2 : List Char) : Token :=
  let count := if ds.isEmpty then some 1 else parseU8 ds
  match count, parseU8 ds2 with
  | some c, some s => Token.xdy c s
  | _, _ => Token.error

/-- Build the bonus token from its digit run; a `u8` overflow makes the
callback fail, producing the error token. -/
def mkBonus (ds : List Char) : Token :=
  match parseU8 ds with
  | some v => Token.bonus v
  | none => Token.error

/-- One maximal-munch scan over the characters.  `fuel` only bounds the
recursion: every step consumes at least one character, so `cs.length` fuel
always suffices and the `fuel = 0` case is never reached from `lex`.
Whitespace is consumed without emitting a token (the `logos::skip`
callback); an unrecognized character emits the error token. -/
def lexGo : Nat → List Char → List Token
  | 0, _ => []
  | _, [] => []
  | fuel + 1, c :: rest =>
    if isWsChar c then
      lexGo fuel rest
    else if c == '+' then
      Token.plus :: lexGo fuel rest
    else if c.isDigit then
      let ds := c :: rest.takeWhile Char.isDigit
      let r1 := rest.dropWhile Char.isDigit
      match r1 with
      | d :: r2 =>
        if d == 'd' || d == 'D' then
          let ds2 := r2.takeWhile Char.isDigit
          if ds2.isEmpty then
            mkBonus ds :: lexGo fuel r1
          else
            mkXdY ds ds2 :: lexGo fuel (r2.dropWhile Char.isDigit)
        else
          mkBonus ds :: lexGo fuel r1
      | [] => [mkBonus ds]
    else if c == 'd' || c == 'D' then
      let ds2 := rest.takeWhile Char.isDigit
      if ds2.isEmpty then
        Token.error :: lexGo fuel rest
      else
        mkXdY [] ds2 :: lexGo fuel (rest.dropWhile Char.isDigit)
    else
      Token.error :: lexGo fuel rest

/-- Tokenize a whole string. -/
def lex (s : String) : List Token := lexGo s.data.length s.data

/-! ## The parser (src/parse_roll_spec.rs, `parse`) -/

/-- The specification for a custom roll: one entry of `dice` per die to
roll, plus the flat list of bonuses. -/
structure RollSpec where
  dice : List Nat
  bonuses : List Nat
deriving DecidableEq, Repr

/-- The loop of `parse`: take the next token, which must be a dice group
(appending `count` copies of `size` to the dice list) or a bonus; a stray
`+`, the error token, or any token other than `+` directly after a term is
a parse failure.  When the tokens run out the dice list must be nonempty.
The three-way split on the token list mirrors the Rust `while let` loop:
the one-token case is a term followed by end of input, and the two-or-more
case is a term whose successor token must be exactly `+`. -/
def parseLoop : List Token → List Nat → List Nat → Option RollSpec
  | [], dice, bonuses =>
    if dice.isEmpty then none else some ⟨dice, bonuses⟩
  | [t], dice, bonuses =>
    match t with
    | Token.xdy count size =>
      let dice2 := dice ++ List.replicate count size
      if dice2.isEmpty then none else some ⟨dice2, bonuses⟩
    | Token.bonus v =>
      if dice.isEmpty then none else some ⟨dice, bonuses ++ [v]⟩
    | Token.plus => none
    | Token.error => none
  | t :: t2 :: rest2, dice, bonuses =>
    match t with
    | Token.xdy count size =>
      if t2 == Token.plus then
        parseLoop rest2 (dice ++ List.replicate count size) bonuses
      else none
    | Token.bonus v =>
      if t2 == Token.plus then parseLoop rest2 dice (bonuses ++ [v]) else none
    | Token.plus => none
    | Token.error => none

/-- The function `parse`: `none` models `Err(())`. -/
def parse (s : String) : Option RollSpec := parseLoop (lex s) [] []

/-! ## The rolls (src/rolls.rs)

Randomness is injected: a generator is a function `g : Nat → Nat` giving the
raw entropy of each successive draw, and `rng.gen_range(1..=n)` maps the raw
draw into `[1, n]`.  The inclusive range `1..=n` is empty when `n = 0`, in
which case `gen_range` panics — modelled as `none`. -/

/-- The draw `rng.gen_range(1..=n)`: panics (`none`) exactly when the range
is empty, i.e. `n = 0`; otherwise a value in `[1, n]` chosen by the raw
entropy of the draw. -/
def genRange1 (n : Nat) (raw : Nat) : Option Nat :=
  if n = 0 then none else some (1 + raw % n)

/-- The outcome of an action or progress roll. -/
inductive Outcome where
  | Miss
  | WeakHit
  | StrongHit
deriving DecidableEq, Repr

/-- The `Display` rendering of an outcome. -/
def Outcome.str : Outcome → String
  | Outcome.Miss => "Miss"
  | Outcome.WeakHit => "Weak Hit"
  | Outcome.StrongHit => "Strong Hit"

/-- The result of an action roll.  The two challenge dice
(`challenge_dice[0]`, `challenge_dice[1]`) are the pair components. -/
structure ActionRoll where
  action_die : Nat
  bonus : Option Nat
  challenge_dice : Nat × Nat
deriving DecidableEq, Repr

/-- The method `ActionRoll::score`: `min(action_die + bonus, 10)` when the
bonus is known, where the addition is the wrapping `u32` addition; `None`
when the bonus is unknown. -/
def ActionRoll.score (a : ActionRoll) : Option Nat :=
  match a.bonus with
  | none => none
  | some b => some (min ((a.action_die + b) % U32) 10)

/-- The method `ActionRoll::outcome`: count the challenge dice the score is
strictly greater than and map 0, 1, 2 to Miss, WeakHit, StrongHit.  The
count of two dice is at most 2, so the `unreachable!` arm of the Rust
`match` is never taken; the final branch here is its count-2 arm. -/
def ActionRoll.outcome (a : ActionRoll) : Option Outcome :=
  match a.score with
  | none => none
  | some score =>
    let higher_than : Nat :=
      (if score > a.challenge_dice.1 then 1 else 0) +
        (if score > a.challenge_dice.2 then 1 else 0)
    some (if higher_than = 0 then Outcome.Miss
          else if higher_than = 1 then Outcome.WeakHit
          else Outcome.StrongHit)

/-- The method `ActionRoll::is_match`. -/
def ActionRoll.is_match (a : ActionRoll) : Bool :=
  a.challenge_dice.1 == a.challenge_dice.2

/-- The result of a progress roll. -/
structure ProgressRoll where
  bonus : Option Nat
  challenge_dice : Nat × Nat
deriving DecidableEq, Repr

/-- The method `ProgressRoll::score`: `min(bonus, 10)` when the bonus (the
progress value, a `u8`) is known; `None` otherwise. -/
def ProgressRoll.score (p : ProgressRoll) : Option Nat :=
  match p.bonus with
  | none => none
  | some b => some (min b 10)

/-- The method `ProgressRoll::outcome`; same classification as
`ActionRoll::outcome`. -/
def ProgressRoll.outcome (p : ProgressRoll) : Option Outcome :=
  match p.score with
  | none => none
  | some score =>
    let higher_than : Nat :=
      (if score > p.challenge_dice.1 then 1 else 0) +
        (if score > p.challenge_dice.2 then 1 else 0)
    some (if higher_than = 0 then Outcome.Miss
          else if higher_than = 1 then Outcome.WeakHit
          else Outcome.StrongHit)

/-- The method `ProgressRoll::is_match`. -/
def ProgressRoll.is_match (p : ProgressRoll) : Bool :=
  p.challenge_dice.1 == p.challenge_dice.2

/-- The result of an oracle roll. -/
structure OracleRoll where
  outcomes : List Nat
deriving DecidableEq, Repr

/-- The function `OracleRoll::random` with the generator injected: `num`
independent draws of `gen_range(1..=100)`, in draw order.  The range is
never empty, so no draw can fail. -/
def OracleRoll.random (num : Nat) (g : Nat → Nat) : OracleRoll :=
  ⟨(List.range num).map (fun i => 1 + g i % 100)⟩

/-- A die with a result. -/
structure RolledDie where
  size : Nat
  roll : Nat
deriving DecidableEq, Repr

/-- The result of a custom roll. -/
structure CustomRoll where
  rolls : List RolledDie
  bonus : Nat
deriving DecidableEq, Repr

/-- The draw loop of `CustomRoll::random`: one `gen_range(1..=die)` per
entry of the dice list, in order; a 0-sided die panics (`none`). -/
def drawDice : List Nat → (Nat → Nat) → Nat → Option (List RolledDie)
  | [], _, _ => some []
  | d :: rest, g, i =>
    match genRange1 d (g i) with
    | none => none
    | some r =>
      match drawDice rest g (i + 1) with
      | none => none
      | some l => some (⟨d, r⟩ :: l)

/-- The comparator of `CustomRoll::random`'s sort,
`|a, b| b.size.cmp(&a.size)`: descending face size. -/
def sizeDesc (a b : RolledDie) : Prop := b.size ≤ a.size

instance : DecidableRel sizeDesc := fun a b => Nat.decLe b.size a.size

/-- The semantics of `CustomRoll::random` with the generator injected.
`sort_unstable_by` guarantees exactly that its output is a permutation of
its input that is sorted by the comparator; it makes no promise about the
relative order of equal elements, so the result is specified as a relation:
`c` is a possible result of `CustomRoll::random(spec)`.  The call panics
(admits no result) exactly when some die size is 0, making the draw loop
fail.  The bonus is the sum of the spec's bonuses (each a `u8`, summed as
`u32`; an overflowing sum would need more than `2^24` bonus terms and is
not modelled). -/
def IsCustomRandom (spec : RollSpec) (g : Nat → Nat) (c : CustomRoll) : Prop :=
  ∃ drawn, drawDice spec.dice g 0 = some drawn ∧
    c.rolls.Perm drawn ∧
    c.rolls.Pairwise sizeDesc ∧
    c.bonus = spec.bonuses.sum

/-- The grouping loop of `CustomRoll::dice`.  The accumulator is kept
reversed (most recent group first) so that the Rust update of the vector's
last element (`*current += 1` through `last_mut`) becomes an update of the
head; the result reverses it back.  `none` models the two panics: the
`unwrap` of `last_mut` on an empty vector (first die exactly equal to the
`u32::MAX` sentinel) and the explicit `panic!` when the list is not in
descending order. -/
def diceLoop : List RolledDie → Nat → List (Nat × Nat) → Option (List (Nat × Nat))
  | [], _, acc => some acc.reverse
  | d :: rest, size, acc =>
    if d.size < size then
      diceLoop rest d.size ((1, d.size) :: acc)
    else if d.size = size then
      match acc with
      | [] => none
      | (c, s) :: tail => diceLoop rest size ((c + 1, s) :: tail)
    else none

/-- The method `CustomRoll::dice`: the rolled dice grouped as
`(count, size)` pairs, starting from the `u32::MAX` sentinel. -/
def CustomRoll.dice (c : CustomRoll) : Option (List (Nat × Nat)) :=
  diceLoop c.rolls (U32 - 1) []

/-- Concatenation of the assembled string parts: `string.join("")` in the
Rust `Display` implementations. -/
def concatParts : List String → String
  | [] => ""
  | p :: ps => p ++ concatParts ps

/-- The `Display` implementation for `ActionRoll`.  In the known-bonus
branch the `unwrap`s of `score()` and `outcome()` cannot fail because the
bonus is present. -/
def ActionRoll.display (a : ActionRoll) : String :=
  match a.bonus with
  | some b =>
    "***" ++
      ("Action Roll: [" ++ toString a.action_die ++ "]+" ++ toString b ++
        " = " ++ toString (a.score.getD 0) ++ " vs [" ++
        toString a.challenge_dice.1 ++ "] [" ++ toString a.challenge_dice.2 ++
        "] (" ++ (if a.is_match then "Matched " else "") ++
        (a.outcome.getD Outcome.Miss).str ++ ")") ++ "***"
  | none =>
    "***" ++
      ("Action Roll: [" ++ toString a.action_die ++ "] vs [" ++
        toString a.challenge_dice.1 ++ "] [" ++ toString a.challenge_dice.2 ++
        "]" ++ (if a.is_match then " (Match)" else "")) ++ "***"

/-- The `Display` implementation for `OracleRoll`. -/
def OracleRoll.display (o : OracleRoll) : String :=
  "***" ++
    concatParts ("Oracle Roll:" :: o.outcomes.map (fun v => " [" ++ toString v ++ "]")) ++
    "***"

/-- The parts vector assembled by `Display for CustomRoll`: "Roll", a
" <count>d<size>" and a " +" per group, then either the bonus or a `pop` of
the last part (intended to drop the trailing " +", but removing "Roll"
itself when there are no groups), then ": ", one bracketed value per die,
the bonus again if nonzero, and the total when more than one value
contributed. -/
def customParts (c : CustomRoll) (groups : List (Nat × Nat)) : List String :=
  let parts1 := "Roll" ::
    (groups.map (fun p => [" " ++ toString p.1 ++ "d" ++ toString p.2, " +"])).flatten
  let parts2 := if c.bonus > 0 then parts1 ++ [" " ++ toString c.bonus]
                else parts1.dropLast
  let parts4 := (parts2 ++ [": "]) ++
    c.rolls.map (fun rd => " [" ++ toString rd.roll ++ "]")
  let parts5 := if c.bonus > 0 then parts4 ++ [" + " ++ toString c.bonus]
                else parts4
  let total := (c.rolls.map RolledDie.roll).sum +
    (if c.bonus > 0 then c.bonus else 0)
  if 1 < c.rolls.length ∨ 0 < c.bonus then
    parts5 ++ ["  (Total: " ++ toString total ++ ")"]
  else parts5

/-- The `Display` implementation for `CustomRoll`: the joined parts vector
wrapped in the `***` delimiters.  `none` propagates the panic of
`CustomRoll::dice`. -/
def CustomRoll.display (c : CustomRoll) : Option String :=
  match c.dice with
  | none => none
  | some groups => some ("***" ++ concatParts (customParts c groups) ++ "***")

/-- Expansion of grouped `(count, size)` terms back into one face-size
entry per die: the reference meaning, in the specification's words, of the
formatter's dice grouping. -/
def replExpand (gs : List (Nat × Nat)) : List Nat :=
  (gs.map (fun p => List.replicate p.1 p.2)).flatten

/-! ## Spec-side reference definitions

These two definitions follow the words of the specification's outcome
classifier contract ("count how many challenge values are strictly less
than the score and map 0 to Miss, 1 to WeakHit, 2 to StrongHit"), to be
compared with the code's outcome computation. -/

/-- The number of the two challenge values that are strictly less than the
score. -/
def countBelow (score c1 c2 : Nat) : Nat :=
  List.countP (fun c => decide (c < score)) [c1, c2]

/-- The outcome tier determined by how many challenge values the score
exceeds.  The count of two values is at most 2, so the last arm is the
count-2 case. -/
def tierOfCount : Nat → Outcome
  | 0 => Outcome.Miss
  | 1 => Outcome.WeakHit
  | _ => Outcome.StrongHit

/-! ## Helper lemmas -/

lemma countBelow_eq (s c1 c2 : Nat) :
    countBelow s c1 c2 = (if c1 < s then 1 else 0) + (if c2 < s then 1 else 0) := by
  simp [countBelow, List.countP_cons, List.countP_nil]
  split_ifs <;> omega

lemma tierOfCount_if (n : Nat) :
    (if n = 0 then Outcome.Miss else if n = 1 then Outcome.WeakHit
     else Outcome.StrongHit) = tierOfCount n := by
  match n with
  | 0 => rfl
  | 1 => rfl
  | _ + 2 => rfl

lemma actionOutcome_closed (a : ActionRoll) (s : Nat) (hs : a.score = some s) :
    a.outcome = some (tierOfCount (countBelow s a.challenge_dice.1 a.challenge_dice.2)) := by
  simp [ActionRoll.outcome, hs, countBelow_eq, ← tierOfCount_if, gt_iff_lt]

lemma progressOutcome_closed (p : ProgressRoll) (s : Nat) (hs : p.score = some s) :
    p.outcome = some (tierOfCount (countBelow s p.challenge_dice.1 p.challenge_dice.2)) := by
  simp [ProgressRoll.outcome, hs, countBelow_eq, ← tierOfCount_if, gt_iff_lt]

lemma parseLoop_plus_head (r : List Token) (dice bonuses : List Nat) :
    parseLoop (Token.plus :: r) dice bonuses = none := by
  cases r <;> rfl

lemma parseLoop_double_plus (n : Nat) :
    ∀ (l r : List Token) (dice bonuses : List Nat), l.length ≤ n →
      parseLoop (l ++ Token.plus :: Token.plus :: r) dice bonuses = none := by
  induction n with
  | zero =>
    intro l r dice bonuses hl
    have : l = [] := List.length_eq_zero.mp (Nat.le_zero.mp hl)
    subst this
    exact parseLoop_plus_head _ _ _
  | succ n ih =>
    intro l r dice bonuses hl
    match l with
    | [] => exact parseLoop_plus_head _ _ _
    | [t] =>
      cases t <;> simp [parseLoop, parseLoop_plus_head]
    | t :: t2 :: l2 =>
      have hlen : l2.length ≤ n := by simp at hl; omega
      cases t <;> simp [parseLoop]
      · intro h
        subst h
        exact ih l2 r _ _ hlen
      · intro h
        subst h
        exact ih l2 r _ _ hlen

/-! ## Claim theorems -/

/-- C8: parse fails, yielding no RollSpec, on each of the twelve listed
inputs: empty, no die term, leading separator, non-numeric term, double
separator, split tokens, missing separator between terms, and magnitude
overflow of count or size. -/
theorem c8_rejected_inputs :
    parse "" = none ∧ parse "5" = none ∧ parse "+ 8" = none ∧
    parse "+d6" = none ∧ parse "1d4 + fish" = none ∧ parse "2d4 ++ 6" = none ∧
    parse "2 d4" = none ∧ parse "2d 4" = none ∧ parse "2 d 4" = none ∧
    parse "2d4 1d6" = none ∧ parse "300d4" = none ∧ parse "d1000" = none :=
  ⟨rfl, rfl, rfl, rfl, rfl, rfl, rfl, rfl, rfl, rfl, rfl, rfl⟩

/-- C2 (counterexample): contrary to the claim, an input ending with a `+`
separator after a term parses successfully: the parse loop consumes the
trailing `+` and then exits at end of input with a nonempty dice list. -/
theorem c2_counterexample : parse "2d4 +" = some ⟨[4, 4], []⟩ := rfl

/-- C2 (amended): any token stream containing two `+` tokens in a row is
rejected, whatever the surrounding tokens (in particular "2d4 ++ 6" is
rejected), but an input ending with a trailing `+` after a term is
accepted. -/
theorem c2_separators :
    (∀ (l r : List Token) (dice bonuses : List Nat),
      parseLoop (l ++ Token.plus :: Token.plus :: r) dice bonuses = none) ∧
    parse "2d4 ++ 6" = none ∧
    parse "2d4 +" = some ⟨[4, 4], []⟩ :=
  ⟨fun l r dice bonuses => parseLoop_double_plus l.length l r dice bonuses le_rfl,
   rfl, rfl⟩

/-- C3: for action and progress rolls with a known score, the outcome is
the tier of the number of challenge dice strictly below the score (0 Miss,
1 WeakHit, 2 StrongHit); a challenge die equal to the score is not counted
(both challenge dice equal to the score give a Miss); with no bonus the
outcome is undefined. -/
theorem c3_outcome_classification :
    (∀ (a : ActionRoll) (s : Nat), a.score = some s →
      a.outcome = some (tierOfCount (countBelow s a.challenge_dice.1 a.challenge_dice.2))) ∧
    (∀ a : ActionRoll, a.bonus = none → a.outcome = none) ∧
    (∀ (p : ProgressRoll) (s : Nat), p.score = some s →
      p.outcome = some (tierOfCount (countBelow s p.challenge_dice.1 p.challenge_dice.2))) ∧
    (∀ p : ProgressRoll, p.bonus = none → p.outcome = none) ∧
    (∀ (a : ActionRoll) (s : Nat), a.score = some s → a.challenge_dice = (s, s) →
      a.outcome = some Outcome.Miss) := by
  refine ⟨actionOutcome_closed, ?_, progressOutcome_closed, ?_, ?_⟩
  · intro a h
    simp [ActionRoll.outcome, ActionRoll.score, h]
  · intro p h
    simp [ProgressRoll.outcome, ProgressRoll.score, h]
  · intro a s hs heq
    rw [actionOutcome_closed a s hs, heq]
    simp [countBelow_eq, tierOfCount]

/-- Witness for C3 at concrete rolls: an action roll 3+4 = 7 vs [5] [9],
a boundary action roll 3+4 = 7 vs [7] [7] (equal is not higher: Miss), a
progress roll, and the two bonus-unknown cases. -/
theorem c3_outcome_classification_witness :
    (⟨3, some 4, (5, 9)⟩ : ActionRoll).outcome = some (tierOfCount (countBelow 7 5 9)) ∧
    (⟨3, none, (5, 9)⟩ : ActionRoll).outcome = none ∧
    (⟨some 2, (1, 9)⟩ : ProgressRoll).outcome = some (tierOfCount (countBelow 2 1 9)) ∧
    (⟨none, (1, 9)⟩ : ProgressRoll).outcome = none ∧
    (⟨3, some 4, (7, 7)⟩ : ActionRoll).outcome = some Outcome.Miss :=
  ⟨c3_outcome_classification.1 ⟨3, some 4, (5, 9)⟩ 7 rfl,
   c3_outcome_classification.2.1 ⟨3, none, (5, 9)⟩ rfl,
   c3_outcome_classification.2.2.1 ⟨some 2, (1, 9)⟩ 2 rfl,
   c3_outcome_classification.2.2.2.1 ⟨none, (1, 9)⟩ rfl,
   c3_outcome_classification.2.2.2.2 ⟨3, some 4, (7, 7)⟩ 7 rfl rfl⟩

/-- C4: the score of an action roll with known bonus is
`min(action die + bonus, 10)` (the `u32` addition does not wrap under the
stated bound, which always holds for generated rolls since the action die
is at most 6 and the bonus at most 255); the score of a progress roll with
known bonus is `min(progress, 10)`; with no bonus both scores are
undefined. -/
theorem c4_score :
    (∀ (a : ActionRoll) (b : Nat), a.bonus = some b → a.action_die + b < U32 →
      a.score = some (min (a.action_die + b) 10)) ∧
    (∀ a : ActionRoll, a.bonus = none → a.score = none) ∧
    (∀ (p : ProgressRoll) (b : Nat), p.bonus = some b → p.score = some (min b 10)) ∧
    (∀ p : ProgressRoll, p.bonus = none → p.score = none) := by
  refine ⟨?_, ?_, ?_, ?_⟩
  · intro a b hb hlt
    simp [ActionRoll.score, hb, Nat.mod_eq_of_lt hlt]
  · intro a h
    simp [ActionRoll.score, h]
  · intro p b hb
    simp [ProgressRoll.score, hb]
  · intro p h
    simp [ProgressRoll.score, h]

/-- Witness for C4 at concrete rolls. -/
theorem c4_score_witness :
    (⟨5, some 3, (1, 1)⟩ : ActionRoll).score = some (min (5 + 3) 10) ∧
    (⟨5, none, (1, 1)⟩ : ActionRoll).score = none ∧
    (⟨some 12, (1, 1)⟩ : ProgressRoll).score = some (min 12 10) ∧
    (⟨none, (1, 1)⟩ : ProgressRoll).score = none :=
  ⟨c4_score.1 ⟨5, some 3, (1, 1)⟩ 3 rfl (by decide),
   c4_score.2.1 ⟨5, none, (1, 1)⟩ rfl,
   c4_score.2.2.1 ⟨some 12, (1, 1)⟩ 12 rfl,
   c4_score.2.2.2 ⟨none, (1, 1)⟩ rfl⟩

/-- C6: the outcome of an action roll is invariant under swapping the two
challenge dice, and the pair is a match exactly when the two challenge
values are equal, whatever the other fields. -/
theorem c6_swap_and_match :
    ∀ (d : Nat) (b : Option Nat) (c1 c2 : Nat),
      (ActionRoll.mk d b (c1, c2)).outcome = (ActionRoll.mk d b (c2, c1)).outcome ∧
      ((ActionRoll.mk d b (c1, c2)).is_match = true ↔ c1 = c2) := by
  intro d b c1 c2
  constructor
  · cases b with
    | none => rfl
    | some b =>
      rw [actionOutcome_closed (ActionRoll.mk d (some b) (c1, c2)) (min ((d + b) % U32) 10) rfl,
        actionOutcome_closed (ActionRoll.mk d (some b) (c2, c1)) (min ((d + b) % U32) 10) rfl]
      have h : ∀ s : Nat, countBelow s c1 c2 = countBelow s c2 c1 := by
        intro s
        rw [countBelow_eq, countBelow_eq]
        omega
      rw [h]
  · simp [ActionRoll.is_match]

/-- C10: an oracle roll of zero draws succeeds with an empty outcome list,
which renders as "***Oracle Roll:***"; the outcome list is nonempty
whenever at least one draw is requested. -/
theorem c10_oracle_zero :
    (∀ g : Nat → Nat, OracleRoll.random 0 g = ⟨[]⟩) ∧
    OracleRoll.display ⟨[]⟩ = "***Oracle Roll:***" ∧
    (∀ (n : Nat) (g : Nat → Nat), 1 ≤ n → (OracleRoll.random n g).outcomes ≠ []) := by
  refine ⟨fun g => rfl, by decide, ?_⟩
  intro n g hn
  simp [OracleRoll.random, List.range_eq_nil]
  omega

/-- Witness for C10: one requested draw yields a nonempty outcome list. -/
theorem c10_oracle_zero_witness :
    (OracleRoll.random 1 (fun _ => 0)).outcomes ≠ [] :=
  c10_oracle_zero.2.2 1 (fun _ => 0) (by decide)

instance : IsTotal RolledDie sizeDesc :=
  ⟨fun a b => Nat.le_total b.size a.size⟩

instance : IsTrans RolledDie sizeDesc :=
  ⟨fun _ _ _ hab hbc => Nat.le_trans hbc hab⟩

lemma drawDice_ok (dice : List Nat) :
    ∀ (g : Nat → Nat) (i : Nat), (∀ d ∈ dice, 1 ≤ d) →
      ∃ drawn, drawDice dice g i = some drawn ∧
        drawn.map RolledDie.size = dice ∧
        ∀ rd ∈ drawn, 1 ≤ rd.roll ∧ rd.roll ≤ rd.size := by
  induction dice with
  | nil =>
    intro g i _
    exact ⟨[], rfl, rfl, by simp⟩
  | cons d rest ih =>
    intro g i h
    have hd : 1 ≤ d := h d (by simp)
    have hne : d ≠ 0 := by omega
    obtain ⟨drawn, hdr, hmap, hb⟩ := ih g (i + 1) (fun x hx => h x (by simp [hx]))
    refine ⟨⟨d, 1 + g i % d⟩ :: drawn, ?_, ?_, ?_⟩
    · simp [drawDice, genRange1, hne, hdr]
    · simp [hmap]
    · intro rd hrd
      rcases List.mem_cons.mp hrd with h1 | h1
      · subst h1
        have hm := Nat.mod_lt (g i) (Nat.pos_of_ne_zero hne)
        constructor
        · show 1 ≤ 1 + g i % d
          omega
        · show 1 + g i % d ≤ d
          omega
      · exact hb rd h1

lemma drawDice_sizes (dice : List Nat) :
    ∀ (g : Nat → Nat) (i : Nat) (drawn : List RolledDie),
      drawDice dice g i = some drawn → drawn.map RolledDie.size = dice := by
  induction dice with
  | nil =>
    intro g i drawn h
    simp [drawDice] at h
    simp [← h]
  | cons d rest ih =>
    intro g i drawn h
    simp only [drawDice] at h
    cases hg : genRange1 d (g i) with
    | none => rw [hg] at h; exact absurd h (by simp)
    | some r =>
      rw [hg] at h
      cases hrest : drawDice rest g (i + 1) with
      | none => rw [hrest] at h; exact absurd h (by simp)
      | some l =>
        rw [hrest] at h
        have hl := ih g (i + 1) l hrest
        simp at h
        simp [← h, hl]

/-- C1 (counterexample): parse succeeds on "d0", producing a spec with a
0-sided die, but then the draw loop of `CustomRoll::random` fails: the
range `1..=0` of `gen_range` is empty, which is a panic. -/
theorem c1_counterexample :
    parse "d0" = some ⟨[0], []⟩ ∧
    drawDice (⟨[0], []⟩ : RollSpec).dice (fun _ => 0) 0 = none :=
  ⟨rfl, rfl⟩

/-- C1 (amended): for every input string on which parse succeeds AND whose
parsed die sizes are all nonzero, evaluation with `CustomRoll::random`
never fails — a result exists for every generator — and in every possible
resulting CustomRoll each rolled die satisfies `1 ≤ roll ≤ size`. -/
theorem c1_safety :
    ∀ (s : String) (spec : RollSpec) (g : Nat → Nat),
      parse s = some spec → (∀ d ∈ spec.dice, 1 ≤ d) →
      (∃ c, IsCustomRandom spec g c) ∧
      (∀ c, IsCustomRandom spec g c →
        ∀ rd ∈ c.rolls, 1 ≤ rd.roll ∧ rd.roll ≤ rd.size) := by
  intro s spec g _ hpos
  obtain ⟨drawn, hdr, _, hb⟩ := drawDice_ok spec.dice g 0 hpos
  constructor
  · refine ⟨⟨List.insertionSort sizeDesc drawn, spec.bonuses.sum⟩,
      drawn, hdr, List.perm_insertionSort _ _, ?_, rfl⟩
    exact List.sorted_insertionSort sizeDesc drawn
  · rintro c ⟨drawn2, hdr2, hperm, _, _⟩ rd hrd
    rw [hdr] at hdr2
    cases hdr2
    exact hb rd (hperm.subset hrd)

/-- Witness for C1: "d4" parses to a single four-sided die, and evaluation
admits a result. -/
theorem c1_safety_witness :
    ∃ c, IsCustomRandom ⟨[4], []⟩ (fun _ => 0) c :=
  (c1_safety "d4" ⟨[4], []⟩ (fun _ => 0) rfl (by decide)).1

/-- C5 (counterexample): the dice of the spec "2d4" draw as
`[(4, 1), (4, 2)]` in that order, yet the CustomRoll whose equal-size dice
appear in the opposite order `[(4, 2), (4, 1)]` is also an admissible
result of `CustomRoll::random`: `sort_unstable_by` does not guarantee that
ties keep their drawn order. -/
theorem c5_counterexample :
    IsCustomRandom ⟨[4, 4], []⟩ (fun i => i) ⟨[⟨4, 2⟩, ⟨4, 1⟩], 0⟩ ∧
    drawDice [4, 4] (fun i => i) 0 = some [⟨4, 1⟩, ⟨4, 2⟩] ∧
    decide (([⟨4, 2⟩, ⟨4, 1⟩] : List RolledDie) = [⟨4, 1⟩, ⟨4, 2⟩]) = false :=
  ⟨⟨[⟨4, 1⟩, ⟨4, 2⟩], rfl, List.Perm.swap _ _ _, by decide, rfl⟩, rfl, rfl⟩

/-- C5 (amended): every CustomRoll produced by `CustomRoll::random` has its
rolls sorted in descending order of face size, and the multiset of face
sizes is exactly the multiset of the spec's dice; the relative order of
equal face sizes is not specified (the sort is unstable). -/
theorem c5_sorted_perm :
    ∀ (spec : RollSpec) (g : Nat → Nat) (c : CustomRoll),
      IsCustomRandom spec g c →
      c.rolls.Pairwise sizeDesc ∧ (c.rolls.map RolledDie.size).Perm spec.dice := by
  rintro spec g c ⟨drawn, hdr, hperm, hsort, _⟩
  refine ⟨hsort, ?_⟩
  rw [← drawDice_sizes spec.dice g 0 drawn hdr]
  exact hperm.map RolledDie.size

/-- Witness for C5 at the spec with one d4. -/
theorem c5_sorted_perm_witness :
    (⟨[⟨4, 1⟩], 0⟩ : CustomRoll).rolls.Pairwise sizeDesc ∧
    ((⟨[⟨4, 1⟩], 0⟩ : CustomRoll).rolls.map RolledDie.size).Perm
      (⟨[4], []⟩ : RollSpec).dice :=
  c5_sorted_perm ⟨[4], []⟩ (fun _ => 0) ⟨[⟨4, 1⟩], 0⟩
    ⟨[⟨4, 1⟩], rfl, List.Perm.refl _, by decide, rfl⟩

lemma replExpand_rev_cons (x : Nat × Nat) (acc : List (Nat × Nat)) :
    replExpand ((x :: acc).reverse) =
      replExpand acc.reverse ++ List.replicate x.1 x.2 := by
  simp [replExpand, List.reverse_cons, List.map_append, List.flatten_append]

lemma diceLoop_run (l : List RolledDie) :
    ∀ (s c₁ : Nat) (acc : List (Nat × Nat)), 1 ≤ c₁ →
      l.Pairwise sizeDesc → (∀ rd ∈ l, rd.size ≤ s) →
      List.Chain' (fun p q : Nat × Nat => p.2 < q.2) ((c₁, s) :: acc) →
      (∀ p ∈ acc, 1 ≤ p.1) →
      ∃ gs, diceLoop l s ((c₁, s) :: acc) = some gs ∧
        replExpand gs = replExpand (((c₁, s) :: acc).reverse) ++ l.map RolledDie.size ∧
        (gs.map Prod.fst).sum = (((c₁, s) :: acc).map Prod.fst).sum + l.length ∧
        List.Chain' (fun p q : Nat × Nat => q.2 < p.2) gs ∧
        (∀ p ∈ gs, 1 ≤ p.1) := by
  induction l with
  | nil =>
    intro s c₁ acc hc₁ _ _ hchain hcnt
    refine ⟨((c₁, s) :: acc).reverse, rfl, by simp, ?_, ?_, ?_⟩
    · simp [List.map_reverse, List.sum_reverse]
      omega
    · exact List.chain'_reverse.mpr hchain
    · intro p hp
      rcases List.mem_cons.mp (List.mem_reverse.mp hp) with h1 | h1
      · subst h1
        exact hc₁
      · exact hcnt p h1
  | cons d rest ih =>
    intro s c₁ acc hc₁ hpw hall hchain hcnt
    have hds : d.size ≤ s := hall d (by simp)
    have hpw2 : rest.Pairwise sizeDesc := hpw.of_cons
    have hrest : ∀ rd ∈ rest, rd.size ≤ d.size := fun rd hrd =>
      (List.pairwise_cons.mp hpw).1 rd hrd
    rcases Nat.lt_or_ge d.size s with hlt | hge
    · have hstep : diceLoop (d :: rest) s ((c₁, s) :: acc) =
          diceLoop rest d.size ((1, d.size) :: (c₁, s) :: acc) := by
        simp [diceLoop, hlt]
      have hchain2 : List.Chain' (fun p q : Nat × Nat => p.2 < q.2)
          ((1, d.size) :: (c₁, s) :: acc) :=
        List.chain'_cons.mpr ⟨hlt, hchain⟩
      have hcnt2 : ∀ p ∈ (c₁, s) :: acc, 1 ≤ p.1 := by
        intro p hp
        rcases List.mem_cons.mp hp with h1 | h1
        · subst h1
          exact hc₁
        · exact hcnt p h1
      obtain ⟨gs, hgs, hexp, hsum, hch, hpos⟩ :=
        ih d.size 1 ((c₁, s) :: acc) le_rfl hpw2 hrest hchain2 hcnt2
      refine ⟨gs, hstep ▸ hgs, ?_, ?_, hch, hpos⟩
      · rw [hexp, replExpand_rev_cons, replExpand_rev_cons]
        simp [List.append_assoc]
      · rw [hsum]
        simp
        omega
    · have heq : d.size = s := Nat.le_antisymm hds hge
      have hstep : diceLoop (d :: rest) s ((c₁, s) :: acc) =
          diceLoop rest s ((c₁ + 1, s) :: acc) := by
        simp [diceLoop, heq]
      have hrest2 : ∀ rd ∈ rest, rd.size ≤ s := fun rd hrd => heq ▸ hrest rd hrd
      have hchain2 : List.Chain' (fun p q : Nat × Nat => p.2 < q.2)
          ((c₁ + 1, s) :: acc) :=
        List.chain'_cons'.mpr (List.chain'_cons'.mp hchain)
      obtain ⟨gs, hgs, hexp, hsum, hch, hpos⟩ :=
        ih s (c₁ + 1) acc (by omega) hpw2 hrest2 hchain2 hcnt
      refine ⟨gs, hstep ▸ hgs, ?_, ?_, hch, hpos⟩
      · rw [hexp, replExpand_rev_cons, replExpand_rev_cons]
        simp [List.replicate_succ', List.append_assoc, heq]
      · rw [hsum]
        simp
        omega

/-- C7 (counterexample): a CustomRoll whose single die has face size
exactly `u32::MAX` is sorted in descending size order, yet
`CustomRoll::dice` fails on it: the first comparison against the
`u32::MAX` sentinel takes the `Equal` arm, whose `last_mut().unwrap()`
panics on the still-empty groups vector. -/
theorem c7_counterexample :
    ([⟨U32 - 1, 1⟩] : List RolledDie).Pairwise sizeDesc ∧
    CustomRoll.dice ⟨[⟨U32 - 1, 1⟩], 0⟩ = none :=
  ⟨by decide, rfl⟩

/-- C7 (amended): for every CustomRoll sorted descending by face size all
of whose face sizes are strictly below the `u32::MAX` sentinel, the
grouping succeeds and merges exactly the consecutive equal sizes: the
groups expand back to the size list, adjacent groups have strictly
decreasing (hence distinct) sizes, every count is at least 1, and the
counts sum to the number of dice. -/
theorem c7_grouping :
    ∀ c : CustomRoll, c.rolls.Pairwise sizeDesc →
      (∀ rd ∈ c.rolls, rd.size < U32 - 1) →
      ∃ gs, c.dice = some gs ∧
        replExpand gs = c.rolls.map RolledDie.size ∧
        (gs.map Prod.fst).sum = c.rolls.length ∧
        List.Chain' (fun p q : Nat × Nat => q.2 < p.2) gs ∧
        (∀ p ∈ gs, 1 ≤ p.1) := by
  intro c hpw hbound
  obtain ⟨rolls, bonus⟩ := c
  cases rolls with
  | nil =>
    exact ⟨[], rfl, by simp [replExpand], by simp, List.chain'_nil, by simp⟩
  | cons d rest =>
    replace hpw : List.Pairwise sizeDesc (d :: rest) := hpw
    replace hbound : ∀ rd ∈ d :: rest, rd.size < U32 - 1 := hbound
    have hlt : d.size < U32 - 1 := hbound d (by simp)
    obtain ⟨gs, hgs, hexp, hsum, hch, hpos⟩ :=
      diceLoop_run rest d.size 1 [] le_rfl hpw.of_cons
        (fun rd hrd => (List.pairwise_cons.mp hpw).1 rd hrd)
        (List.chain'_singleton _) (by simp)
    refine ⟨gs, ?_, ?_, ?_, hch, hpos⟩
    · show diceLoop (d :: rest) (U32 - 1) [] = some gs
      have hstep : diceLoop (d :: rest) (U32 - 1) [] =
          diceLoop rest d.size [(1, d.size)] := by
        simp [diceLoop, hlt]
      rw [hstep]
      exact hgs
    · show replExpand gs = (d :: rest).map RolledDie.size
      rw [hexp]
      simp [replExpand]
    · show (gs.map Prod.fst).sum = (d :: rest).length
      rw [hsum]
      simp
      omega

/-- Witness for C7 at a sorted three-die roll (two d6 and one d4): the
groups are as computed by `CustomRoll::dice` and satisfy the grouping
properties. -/
theorem c7_grouping_witness :
    ∃ gs, (⟨[⟨6, 5⟩, ⟨6, 2⟩, ⟨4, 4⟩], 3⟩ : CustomRoll).dice = some gs ∧
      replExpand gs =
        (⟨[⟨6, 5⟩, ⟨6, 2⟩, ⟨4, 4⟩], 3⟩ : CustomRoll).rolls.map RolledDie.size ∧
      (gs.map Prod.fst).sum =
        (⟨[⟨6, 5⟩, ⟨6, 2⟩, ⟨4, 4⟩], 3⟩ : CustomRoll).rolls.length ∧
      List.Chain' (fun p q : Nat × Nat => q.2 < p.2) gs ∧
      (∀ p ∈ gs, 1 ≤ p.1) :=
  c7_grouping ⟨[⟨6, 5⟩, ⟨6, 2⟩, ⟨4, 4⟩], 3⟩ (by decide) (by decide)

lemma diceLoop_acc_ne_nil (l : List RolledDie) :
    ∀ (s : Nat) (acc gs : List (Nat × Nat)),
      diceLoop l s acc = some gs → acc ≠ [] → gs ≠ [] := by
  induction l with
  | nil =>
    intro s acc gs h hne
    simp [diceLoop] at h
    subst h
    simpa using hne
  | cons d rest ih =>
    intro s acc gs h hne
    simp only [diceLoop] at h
    split_ifs at h with h1 h2
    · exact ih d.size ((1, d.size) :: acc) gs h (by simp)
    · cases acc with
      | nil => exact absurd rfl hne
      | cons p tail => exact ih s ((p.1 + 1, p.2) :: tail) gs h (by simp)

lemma dice_ne_nil (c : CustomRoll) (groups : List (Nat × Nat))
    (h : c.dice = some groups) (hne : c.rolls ≠ []) : groups ≠ [] := by
  unfold CustomRoll.dice at h
  cases hr : c.rolls with
  | nil => exact absurd hr hne
  | cons d rest =>
    rw [hr] at h
    simp only [diceLoop] at h
    split_ifs at h with h1 h2
    · exact diceLoop_acc_ne_nil rest d.size [(1, d.size)] groups h (by simp)

lemma customParts_head (c : CustomRoll) (groups : List (Nat × Nat))
    (h : groups ≠ [] ∨ 0 < c.bonus) :
    ∃ t, customParts c groups = "Roll" :: t := by
  by_cases hb : 0 < c.bonus
  · simp [customParts, hb]
  · have hg : groups ≠ [] := h.resolve_right hb
    obtain ⟨g, gr, rfl⟩ := List.exists_cons_of_ne_nil hg
    simp only [customParts]
    simp [hb, List.dropLast]
    split <;> exact ⟨_, rfl⟩

/-- C9 (counterexample): a single d6 rolling 4 does not format as the
claimed "***Roll 1d6: [4]***"; the joined parts are the ": " part followed
by the " [4]" part, so the code produces "***Roll 1d6:  [4]***" with two
spaces before the bracket. -/
theorem c9_counterexample :
    CustomRoll.display ⟨[⟨6, 4⟩], 0⟩ = some "***Roll 1d6:  [4]***" ∧
    decide (("***Roll 1d6:  [4]***" : String) = "***Roll 1d6: [4]***") = false :=
  ⟨rfl, rfl⟩

/-- C9 (amended): every formatted custom or action roll string is wrapped
in leading and trailing "***" delimiters; the rendering of a custom roll
with at least one die (or a nonzero bonus) begins with the word "Roll"
right after the delimiter; and a single d6 rolling 4 formats as
"***Roll 1d6:  [4]***", with two spaces before the bracketed value. -/
theorem c9_display :
    (∀ (c : CustomRoll) (s : String), c.display = some s →
      ∃ mid, s = "***" ++ mid ++ "***") ∧
    (∀ (c : CustomRoll) (s : String), c.display = some s →
      c.rolls ≠ [] ∨ 0 < c.bonus → ∃ rest, s = "***Roll" ++ rest) ∧
    (∀ a : ActionRoll, ∃ mid, a.display = "***" ++ mid ++ "***") ∧
    CustomRoll.display ⟨[⟨6, 4⟩], 0⟩ = some "***Roll 1d6:  [4]***" := by
  refine ⟨?_, ?_, ?_, rfl⟩
  · intro c s h
    unfold CustomRoll.display at h
    cases hd : c.dice with
    | none =>
      rw [hd] at h
      exact absurd h (by simp)
    | some groups =>
      rw [hd] at h
      simp only [Option.some.injEq] at h
      exact ⟨concatParts (customParts c groups), h.symm⟩
  · intro c s h hne
    unfold CustomRoll.display at h
    cases hd : c.dice with
    | none =>
      rw [hd] at h
      exact absurd h (by simp)
    | some groups =>
      rw [hd] at h
      simp only [Option.some.injEq] at h
      obtain ⟨t, ht⟩ := customParts_head c groups
        (hne.imp (fun hr => dice_ne_nil c groups hd hr) id)
      refine ⟨concatParts t ++ "***", ?_⟩
      rw [← h, ht]
      show "***" ++ ("Roll" ++ concatParts t) ++ "***" =
        "***Roll" ++ (concatParts t ++ "***")
      rw [← String.append_assoc "***" "Roll" (concatParts t)]
      show ("***Roll" ++ concatParts t) ++ "***" =
        "***Roll" ++ (concatParts t ++ "***")
      rw [String.append_assoc]
  · intro a
    obtain ⟨die, b, cd⟩ := a
    cases b with
    | none => exact ⟨_, rfl⟩
    | some b => exact ⟨_, rfl⟩

/-- Witness for C9: the formatted single-d6 roll begins with "***Roll". -/
theorem c9_display_witness :
    ∃ rest, "***Roll 1d6:  [4]***" = "***Roll" ++ rest :=
  c9_display.2.1 ⟨[⟨6, 4⟩], 0⟩ "***Roll 1d6:  [4]***" rfl (Or.inl (by decide))

end Starforged
